import Mathlib

/-!
Verification of the flatten/reconstruct/merge configuration engine in
`api/apps.go` (functions `structToFlatMap`, `setAppOption`, `setApp`,
`deleteApp`) against its natural-language specification.

Go runtime values reaching the engine are modelled by the mutual
inductive `GoValue`/`GoList`/`GoFields`. A struct is a sequence of
fields, each carrying its declared name, its `json` tag (the empty
string when the tag is absent) and its value. A pointer whose element
type is a struct is `ptrStruct`/`ptrStructNil`; a pointer to any other
element type is `ptrOther` (its pointee plays no role in the code under
study). `unsupported` stands for a value such as a channel or function
that `fmt` can print but `encoding/json` refuses to marshal.

Go maps are modelled as association lists together with the
update-or-append operation `setAssoc` and the lookup `lookupAssoc`:
writing `m[k] = v` replaces the entry for `k` when one exists and adds
one otherwise, exactly as a Go map does. The iteration order of a Go
map is unspecified; the model fixes the insertion order, and every
theorem below depends only on lookup/membership facts that are
insensitive to that choice.
-/

namespace SemaphoreApps

inductive ScalarTy where
  | stringT
  | boolT
  | intT
deriving DecidableEq

inductive GoKind where
  | scalarK
  | sliceK
  | arrayK
  | structK
  | ptrK
  | unsupportedK
deriving DecidableEq

mutual
inductive GoValue where
  | scalar (ty : ScalarTy) (rep : String)
  | slice (elems : GoList)
  | array (elems : GoList)
  | struct (fields : GoFields)
  | ptrStruct (target : GoFields)
  | ptrStructNil
  | ptrOther (isNil : Bool)
  | unsupported (rep : String)

inductive GoList where
  | nil
  | cons (v : GoValue) (rest : GoList)

inductive GoFields where
  | nil
  | cons (nm : String) (tag : String) (v : GoValue) (rest : GoFields)
end

/-- `reflect.Value.Kind` of a modelled value (`ptrStruct`, `ptrStructNil`
and `ptrOther` are all of kind `Ptr` in Go). -/
def goKind : GoValue → GoKind
  | .scalar _ _ => .scalarK
  | .slice _ => .sliceK
  | .array _ => .arrayK
  | .struct _ => .structK
  | .ptrStruct _ => .ptrK
  | .ptrStructNil => .ptrK
  | .ptrOther _ => .ptrK
  | .unsupported _ => .unsupportedK

/-- Model of Go `strings.Split` with a one-character separator, on the
character list of the string: `strings.Split("", sep)` is `[""]`, and in
general the result has one chunk per separator occurrence plus one. -/
def splitChar (sep : Char) : List Char → List (List Char)
  | [] => [[]]
  | c :: cs =>
    if c = sep then [] :: splitChar sep cs
    else
      match splitChar sep cs with
      | [] => [[c]]
      | h :: t => (c :: h) :: t

/-- Go `strings.Split(s, sep)` for a one-character separator. -/
def goSplitOn (s : String) (sep : Char) : List String :=
  (splitChar sep s.data).map String.mk

/-- The canonical flat-key segment of one struct field, exactly as
computed inside `structToFlatMap` (`api/apps.go` lines 34-43): take the
`json` tag; if it is empty or `"-"` fall back to the declared field
name, otherwise keep only the part before the first comma
(`strings.Split(fieldName, ",")[0]`). -/
def fieldKeyName (declName : String) (jsonTag : String) : String :=
  if jsonTag = "" ∨ jsonTag = "-" then declName
  else ((goSplitOn jsonTag ',').headD "")

/-- Go map write `m[k] = v` on an association-list model: replace the
existing entry for `k`, or append a fresh one. -/
def setAssoc {α : Type} (m : List (String × α)) (k : String) (v : α) :
    List (String × α) :=
  if m.any (fun p => p.1 == k) then
    m.map (fun p => if p.1 == k then (k, v) else p)
  else m ++ [(k, v)]

/-- Go map read `m[k]` on the association-list model. -/
def lookupAssoc {α : Type} (m : List (String × α)) (k : String) : Option α :=
  match m.find? (fun p => p.1 == k) with
  | some p => some p.2
  | none => none

/-- The field loop of `structToFlatMap` (`api/apps.go` lines 31-57),
with `result` the map built so far. A field of struct kind is flattened
recursively (the recursive `structToFlatMap(field.Interface())` call
receives a struct value, so it runs the same loop on its fields) and
each child entry is written back under `fieldName + "." + k`; any other
field is written unchanged under its own key. -/
def flattenFields : GoFields → List (String × GoValue) → List (String × GoValue)
  | .nil, result => result
  | .cons n t v rest, result =>
    match v with
    | .struct fs =>
      flattenFields rest
        ((flattenFields fs []).foldl
          (fun r kv => setAssoc r (fieldKeyName n t ++ "." ++ kv.1) kv.2) result)
    | _ => flattenFields rest (setAssoc result (fieldKeyName n t) v)

/-- `structToFlatMap` (`api/apps.go` lines 16-58). `none` models the
run-time panic: for a nil pointer whose element type is a struct, the
code dereferences (`val.Elem()`), passes the `typ.Kind() == Struct`
check, and then calls `NumField` on the resulting zero `reflect.Value`,
which panics. A non-struct input (after following at most one pointer)
returns the empty map. -/
def structToFlatMap : GoValue → Option (List (String × GoValue))
  | .struct fs => some (flattenFields fs [])
  | .ptrStruct fs => some (flattenFields fs [])
  | .ptrStructNil => none
  | _ => some []

mutual
/-- Model of `fmt.Sprintf("%v", val)` as used by `setAppOption`:
scalars print their textual representation, slices and arrays print as
space-separated elements in square brackets, structs as brace-enclosed
field values, nil pointers as `<nil>`. A non-nil pointer to a
non-struct prints a machine address, which the model cannot reproduce;
no theorem below formats such a value. -/
def goSprintf : GoValue → String
  | .scalar _ r => r
  | .slice xs => "[" ++ sprintfElems xs ++ "]"
  | .array xs => "[" ++ sprintfElems xs ++ "]"
  | .struct fs => "\x7b" ++ sprintfFieldVals fs ++ "\x7d"
  | .ptrStruct fs => "&\x7b" ++ sprintfFieldVals fs ++ "\x7d"
  | .ptrStructNil => "<nil>"
  | .ptrOther true => "<nil>"
  | .ptrOther false => "0x0"
  | .unsupported r => r

def sprintfElems : GoList → String
  | .nil => ""
  | .cons v .nil => goSprintf v
  | .cons v rest => goSprintf v ++ " " ++ sprintfElems rest

def sprintfFieldVals : GoFields → String
  | .nil => ""
  | .cons _ _ v .nil => goSprintf v
  | .cons _ _ v rest => goSprintf v ++ " " ++ sprintfFieldVals rest
end

mutual
/-- Model of `encoding/json.Marshal` on the modelled values (string
escaping inside scalars is not modelled): strings quote, other scalars
print bare, slices/arrays become comma-separated bracketed lists,
structs become objects keyed by the same naming rule the flattener
uses, nil pointers become `null`, and a value json cannot handle (a
channel, a function) yields an error — the first such element
encountered, as in Go. -/
def jsonMarshal : GoValue → Except String String
  | .scalar .stringT r => .ok ("\"" ++ r ++ "\"")
  | .scalar _ r => .ok r
  | .slice xs =>
    match jsonMarshalElems xs with
    | .ok s => .ok ("[" ++ s ++ "]")
    | .error e => .error e
  | .array xs =>
    match jsonMarshalElems xs with
    | .ok s => .ok ("[" ++ s ++ "]")
    | .error e => .error e
  | .struct fs =>
    match jsonMarshalFields fs with
    | .ok s => .ok ("\x7b" ++ s ++ "\x7d")
    | .error e => .error e
  | .ptrStruct fs =>
    match jsonMarshalFields fs with
    | .ok s => .ok ("\x7b" ++ s ++ "\x7d")
    | .error e => .error e
  | .ptrStructNil => .ok "null"
  | .ptrOther true => .ok "null"
  | .ptrOther false => .error "json: pointee not modelled"
  | .unsupported _ => .error "json: unsupported type"

def jsonMarshalElems : GoList → Except String String
  | .nil => .ok ""
  | .cons v .nil => jsonMarshal v
  | .cons v rest =>
    match jsonMarshal v with
    | .error e => .error e
    | .ok a =>
      match jsonMarshalElems rest with
      | .error e => .error e
      | .ok b => .ok (a ++ "," ++ b)

def jsonMarshalFields : GoFields → Except String String
  | .nil => .ok ""
  | .cons n t v .nil =>
    match jsonMarshal v with
    | .error e => .error e
    | .ok a => .ok ("\"" ++ fieldKeyName n t ++ "\":" ++ a)
  | .cons n t v rest =>
    match jsonMarshal v with
    | .error e => .error e
    | .ok a =>
      match jsonMarshalFields rest with
      | .error e => .error e
      | .ok b => .ok ("\"" ++ fieldKeyName n t ++ "\":" ++ a ++ "," ++ b)
end

/-- A tree of nested string maps, the intermediate shape between the
flat key set and the configuration object. -/
inductive NestedTree where
  | leaf (text : String)
  | branch (children : List (String × NestedTree))

/-- One insertion step of the Nested Reconstructor: walk/create the
chain of branches named by the leading segments and set the final
segment to a leaf. When a prefix that already holds a leaf is needed as
a branch, the spec leaves the source behavior undefined; the model
starts a fresh branch there (no claim below exercises that case). -/
def insertPath : List (String × NestedTree) → List String → String → List (String × NestedTree)
  | children, [], _ => children
  | children, [s], v => setAssoc children s (.leaf v)
  | children, s :: s2 :: rest, v =>
    let sub :=
      match lookupAssoc children s with
      | some (.branch ch) => ch
      | _ => []
    setAssoc children s (.branch (insertPath sub (s2 :: rest) v))

/-- Modelled from the spec: `db.ConvertFlatToNested` lives in the `db`
package outside the sources under study; §4.5 of the spec defines it —
for each `(key, value)` split `key` on `.` and set the leaf at the end
of the walked/created chain of nested mappings. -/
def ConvertFlatToNested (entries : List (String × String)) : List (String × NestedTree) :=
  entries.foldl (fun acc kv => insertPath acc (goSplitOn kv.1 '.') kv.2) []

def listToGoList : List GoValue → GoList
  | [] => .nil
  | v :: rest => .cons v (listToGoList rest)

/-- Strip the surrounding double quotes of one JSON string token. -/
def unquote : List Char → Option (List Char)
  | '"' :: rest =>
    match rest.getLast? with
    | some '"' => some rest.dropLast
    | _ => none
  | _ => none

/-- Decode a JSON array of string literals (no escape handling), the
inverse of the composite encoding for string sequences. -/
def jsonDecodeStrings (s : String) : Option (List String) :=
  match s.data with
  | '[' :: rest =>
    match rest.getLast? with
    | some ']' =>
      let inner := rest.dropLast
      if inner.isEmpty then some []
      else (splitChar ',' inner).mapM (fun e => (unquote e).map String.mk)
    | _ => none
  | _ => none

/-- Modelled from the spec: the per-field type coercion of the Struct
Assigner (§4.6, part of `db.AssignMapToStruct`, which lives outside the
sources under study) — parse the stored text at the field's declared
type, reporting an error when the text cannot be parsed as that type. -/
def coerceLeaf (text : String) (old : GoValue) : Except String GoValue :=
  match old with
  | .scalar .stringT _ => .ok (.scalar .stringT text)
  | .scalar .boolT _ =>
    if text == "true" || text == "false" then .ok (.scalar .boolT text)
    else .error ("cannot parse \"" ++ text ++ "\" as bool")
  | .scalar .intT _ =>
    if (!text.isEmpty) && text.data.all Char.isDigit then .ok (.scalar .intT text)
    else .error ("cannot parse \"" ++ text ++ "\" as int")
  | .slice _ =>
    match jsonDecodeStrings text with
    | some xs => .ok (.slice (listToGoList (xs.map (GoValue.scalar .stringT))))
    | none => .error ("cannot parse \"" ++ text ++ "\" as sequence")
  | .array _ =>
    match jsonDecodeStrings text with
    | some xs => .ok (.array (listToGoList (xs.map (GoValue.scalar .stringT))))
    | none => .error ("cannot parse \"" ++ text ++ "\" as sequence")
  | _ => .error "cannot assign text value to field of this type"

/-- Modelled from the spec: `db.AssignMapToStruct` lives in the `db`
package outside the sources under study; §4.6 of the spec defines it —
for each field of the target whose canonical key is present in the
tree, recurse when the tree holds a branch and the field a record, or
coerce-and-assign when the tree holds a leaf; fields whose key is
absent are left untouched; unknown tree keys are ignored. Coercion is
best-effort per field; the returned option carries the first reported
coercion error (which the caller in `setAppOption` discards). -/
def AssignMapToStruct : List (String × NestedTree) → GoFields → GoFields × Option String
  | _, .nil => (.nil, none)
  | tree, .cons n t v rest =>
    let tail := AssignMapToStruct tree rest
    match lookupAssoc tree (fieldKeyName n t) with
    | none => (.cons n t v tail.1, tail.2)
    | some (.leaf s) =>
      match coerceLeaf s v with
      | .ok v2 => (.cons n t v2 tail.1, tail.2)
      | .error e => (.cons n t v tail.1, some e)
    | some (.branch ch) =>
      match v with
      | .struct fs =>
        let sub := AssignMapToStruct ch fs
        (.cons n t (.struct sub.1) tail.1,
          match sub.2 with
          | some e => some e
          | none => tail.2)
      | _ => (.cons n t v tail.1, tail.2)

/-- The Option Store as `setAppOption` sees it: `writeErr key value`
is `none` when `store.SetOption(key, value)` succeeds and carries the
error message when it fails. Successful writes persist; failed writes
do not. -/
structure StoreModel where
  writeErr : String → String → Option String

/-- The state `setApp`/`setAppOption` acts on: the key/value pairs
persisted in the Option Store so far, and the live `util.Config`
configuration object (its `Apps` subtree modelled as nested fields). -/
structure LoopState where
  persisted : List (String × String)
  config : GoFields

/-- The HTTP outcome of a handler: 204 No Content on success, or a 500
with the error message (`helpers.WriteErrorStatus`). -/
inductive Response where
  | noContent
  | serverError (msg : String)
deriving DecidableEq

/-- `setAppOption` (`api/apps.go` lines 150-167): build the key
`"apps." + appID + "." + field`, format the value with
`fmt.Sprintf("%v", ...)`, write it to the store (returning the store
error, with nothing persisted and the configuration untouched, on
failure), then rebuild the one-key tree and merge it into the live
configuration, discarding the merge's error (`_ =`), and return nil. -/
def setAppOption (store : StoreModel) (st : LoopState) (appID : String)
    (fld : String) (val : GoValue) : LoopState × Option String :=
  let key := "apps." ++ appID ++ "." ++ fld
  let v := goSprintf val
  match store.writeErr key v with
  | some e => (st, some e)
  | none =>
    let tree := ConvertFlatToNested [(key, v)]
    let newCfg := (AssignMapToStruct tree st.config).1
    ({ persisted := setAssoc st.persisted key v, config := newCfg }, none)

/-- The write loop of `setApp` (`api/apps.go` lines 182-199) over the
flat entries produced by the flattener, in the (arbitrary) order the Go
map iteration yields them: an entry of slice or array kind is first
serialized with `json.Marshal` — a marshal failure answers 500 with
that error and stops — then every entry is handed to `setAppOption`,
whose failure likewise answers 500 and stops; an exhausted loop answers
204. -/
def setAppLoop (store : StoreModel) (appID : String) :
    List (String × GoValue) → LoopState → LoopState × Response
  | [], st => (st, .noContent)
  | (k, v) :: rest, st =>
    match goKind v with
    | .sliceK | .arrayK =>
      match jsonMarshal v with
      | .error e => (st, .serverError e)
      | .ok m =>
        match setAppOption store st appID k (.scalar .stringT m) with
        | (st2, some e) => (st2, .serverError e)
        | (st2, none) => setAppLoop store appID rest st2
    | _ =>
      match setAppOption store st appID k v with
      | (st2, some e) => (st2, .serverError e)
      | (st2, none) => setAppLoop store appID rest st2

/-- `setApp` after a successful request-body bind: flatten the decoded
`util.App` struct and run the write loop on the resulting entries. -/
def setApp (store : StoreModel) (appID : String) (app : GoFields)
    (st : LoopState) : LoopState × Response :=
  setAppLoop store appID (flattenFields app []) st

/-- Result of the store's `DeleteOptions`: success, the distinguishable
`db.ErrNotFound`, or any other error. -/
inductive DelErr where
  | notFound
  | otherErr (msg : String)
deriving DecidableEq

/-- The Option Store as `deleteApp` sees it. -/
structure DelStore where
  deleteOptions : String → Option DelErr

/-- `deleteApp` (`api/apps.go` lines 134-148): call
`store.DeleteOptions("apps." + appID)`; any error other than
`db.ErrNotFound` answers 500 and leaves `util.Config.Apps` unchanged;
otherwise (success or NotFound) remove the app from the in-memory map
and answer 204. -/
def deleteApp {α : Type} (store : DelStore) (apps : List (String × α))
    (appID : String) : List (String × α) × Response :=
  match store.deleteOptions ("apps." ++ appID) with
  | some (.otherErr msg) => (apps, .serverError msg)
  | _ => (apps.filter (fun p => p.1 != appID), .noContent)

/-- The fields of a struct as a plain list of (declared name, json tag,
value) triples. -/
def fieldsList : GoFields → List (String × String × GoValue)
  | .nil => []
  | .cons n t v rest => (n, t, v) :: fieldsList rest

/-- Canonical key of one field triple. -/
def keyOfField (f : String × String × GoValue) : String :=
  fieldKeyName f.1 f.2.1

/-- The canonical key segments of one struct level. -/
def levelKeys (fs : GoFields) : List String :=
  (fieldsList fs).map keyOfField

/-- A key segment that does not contain the path separator. -/
def dotFree (s : String) : Bool :=
  s.data.all (fun c => c != '.')

/-- Boolean form of `List.Nodup` on key lists. -/
def nodupB (l : List String) : Bool :=
  decide l.Nodup

/-- The flat-key part before the first `.` (the whole key when it has
no dot). -/
def firstSegOf (s : String) : String :=
  String.mk (s.data.takeWhile (fun c => c != '.'))

mutual
/-- Number of terminal (non-struct) fields reachable from a value: a
struct contributes the recursive count of its fields, anything else is
itself one terminal field. -/
def terminalCountV : GoValue → Nat
  | .struct fs => terminalCountF fs
  | _ => 1

def terminalCountF : GoFields → Nat
  | .nil => 0
  | .cons _ _ v rest => terminalCountV v + terminalCountF rest
end

mutual
/-- The flat entries contributed by one field with canonical key `key`
holding value `v`, in field order: a struct field contributes its own
flattening re-keyed under `key + "." + childKey`, any other field the
single entry `(key, v)`. When no two produced keys collide this is
exactly what the `structToFlatMap` loop builds. -/
def entryV (key : String) : GoValue → List (String × GoValue)
  | .struct fs => (flatListF fs).map (fun kv => (key ++ "." ++ kv.1, kv.2))
  | v => [(key, v)]

/-- Concatenation of the entries of all fields, in field order. -/
def flatListF : GoFields → List (String × GoValue)
  | .nil => []
  | .cons n t v rest => entryV (fieldKeyName n t) v ++ flatListF rest
end

/-- Whether the static type of a value, after following at most one
pointer, is a struct (the inputs on which `structToFlatMap` passes its
kind guard). -/
def derefKindIsStruct : GoValue → Bool
  | .struct _ => true
  | .ptrStruct _ => true
  | .ptrStructNil => true
  | _ => false

mutual
/-- No two fields of any struct level (of this value) share a canonical
key — the hypothesis of the flattener output invariant as the spec
states it. -/
def levelsNodupV : GoValue → Bool
  | .struct fs => nodupB (levelKeys fs) && levelsNodupF fs
  | _ => true

def levelsNodupF : GoFields → Bool
  | .nil => true
  | .cons _ _ v rest => levelsNodupV v && levelsNodupF rest
end

mutual
/-- No canonical key of any struct level (of this value) contains the
path separator `.`. -/
def dotFreeKeysV : GoValue → Bool
  | .struct fs => (levelKeys fs).all dotFree && dotFreeKeysF fs
  | _ => true

def dotFreeKeysF : GoFields → Bool
  | .nil => true
  | .cons _ _ v rest => dotFreeKeysV v && dotFreeKeysF rest
end

/-- The text `setApp` hands to the Option Store for one flat entry
value: slices and arrays are JSON-marshalled, everything else goes
through the default `%v` formatting inside `setAppOption`. -/
def encodeEntry (v : GoValue) : Except String String :=
  match goKind v with
  | .sliceK => jsonMarshal v
  | .arrayK => jsonMarshal v
  | _ => .ok (goSprintf v)

/-- One `setApp` loop entry succeeds: its encoding succeeds and the
store accepts the write of its key. -/
def entryOk (store : StoreModel) (appID : String) (e : String × GoValue) : Bool :=
  match encodeEntry e.2 with
  | .ok enc => (store.writeErr ("apps." ++ appID ++ "." ++ e.1) enc).isNone
  | .error _ => false

/-- The state after one successful `setApp` loop entry. -/
def applyEntry (store : StoreModel) (appID : String) (st : LoopState)
    (e : String × GoValue) : LoopState :=
  match goKind e.2 with
  | .sliceK =>
    match jsonMarshal e.2 with
    | .ok m => (setAppOption store st appID e.1 (.scalar .stringT m)).1
    | .error _ => st
  | .arrayK =>
    match jsonMarshal e.2 with
    | .ok m => (setAppOption store st appID e.1 (.scalar .stringT m)).1
    | .error _ => st
  | _ => (setAppOption store st appID e.1 e.2).1

/-- Keys of an association list. -/
def keysOf {α : Type} (m : List (String × α)) : List String :=
  m.map Prod.fst

/-! ### Concrete fixtures used by counterexamples and witnesses -/

/-- A struct whose json alias `A.B` contains a dot: its canonical keys
are duplicate-free at every level, yet its flat key `A.B` collides with
the composed key of the nested field `A`→`B`. In Go terms: a field X
of type int with json tag "A.B", next to a field A of struct type with
a single int field B. -/
def cexFields : GoFields :=
  .cons "X" "A.B" (.scalar .intT "1")
    (.cons "A" "" (.struct (.cons "B" "" (.scalar .intT "2") .nil)) .nil)

/-- Outer = (Inner = struct(X = 1), Y = 2), the spec's nested-prefixing
example. -/
def c4Fields : GoFields :=
  .cons "Inner" "" (.struct (.cons "X" "" (.scalar .intT "1") .nil))
    (.cons "Y" "" (.scalar .intT "2") .nil)

/-- A small configuration object: an `apps` map with one app carrying a
bool and a string option, plus an unrelated sibling field. -/
def wCfg : GoFields :=
  .cons "Apps" "apps"
    (.struct (.cons "test" ""
      (.struct (.cons "Active" "active" (.scalar .boolT "false")
        (.cons "Title" "title" (.scalar .stringT "T") .nil))) .nil))
    (.cons "Port" "port" (.scalar .intT "3000") .nil)

def wState : LoopState := { persisted := [], config := wCfg }

/-- A store that accepts every write. -/
def wStoreOK : StoreModel := { writeErr := fun _ _ => none }

/-- A store that rejects exactly the key `apps.test.bad`. -/
def wStoreBad : StoreModel :=
  { writeErr := fun k _ => if k = "apps.test.bad" then some "boom" else none }

/-- A list value `["a","b"]`. -/
def wSlice : GoValue :=
  .slice (.cons (.scalar .stringT "a") (.cons (.scalar .stringT "b") .nil))

/-- A slice containing a value json refuses to marshal. -/
def wBadSlice : GoValue := .slice (.cons (.unsupported "chan") .nil)

def wDelNF : DelStore := { deleteOptions := fun _ => some .notFound }

def wDelErr : DelStore := { deleteOptions := fun _ => some (.otherErr "disk failure") }

/-! ### Helper lemmas: strings, splitting, association lists -/

theorem data_append_sep (a b : String) :
    (a ++ "." ++ b).data = a.data ++ '.' :: b.data := by
  simp [String.data_append]

theorem string_mk_data (s : String) : String.mk s.data = s := rfl

theorem append_sep_right_inj {a x y : String}
    (h : a ++ "." ++ x = a ++ "." ++ y) : x = y := by
  have hd : (a ++ "." ++ x).data = (a ++ "." ++ y).data := by rw [h]
  rw [data_append_sep, data_append_sep] at hd
  have := List.append_cancel_left hd
  have hxy : x.data = y.data := by injection this
  calc x = String.mk x.data := rfl
    _ = String.mk y.data := by rw [hxy]
    _ = y := rfl

theorem takeWhile_append_sep {sep : Char} :
    ∀ (l m : List Char), (∀ c ∈ l, (c != sep) = true) →
    (l ++ sep :: m).takeWhile (fun c => c != sep) = l := by
  intro l
  induction l with
  | nil => intro m _; simp [List.takeWhile]
  | cons c l ih =>
    intro m h
    have hc := h c (by simp)
    simp only [List.cons_append, List.takeWhile]
    rw [hc]
    simp only [List.cons.injEq, true_and]
    exact ih m (fun d hd => h d (by simp [hd]))

theorem firstSeg_dotFree {a : String} (h : dotFree a = true) :
    firstSegOf a = a := by
  have ht : a.data.takeWhile (fun c => c != '.') = a.data :=
    List.takeWhile_eq_self_iff.mpr (fun c hc => List.all_eq_true.mp h c hc)
  unfold firstSegOf
  rw [ht]

theorem firstSeg_nested {a : String} (x : String) (h : dotFree a = true) :
    firstSegOf (a ++ "." ++ x) = a := by
  unfold firstSegOf
  rw [data_append_sep, takeWhile_append_sep a.data x.data
    (fun c hc => List.all_eq_true.mp h c hc)]

theorem splitChar_ne_nil (sep : Char) : ∀ l : List Char, splitChar sep l ≠ [] := by
  intro l
  cases l with
  | nil => simp [splitChar]
  | cons c cs =>
    by_cases hc : c = sep
    · simp [splitChar, hc]
    · simp only [splitChar, if_neg hc]
      cases h : splitChar sep cs with
      | nil => simp
      | cons a t => simp

theorem splitChar_headD (sep : Char) :
    ∀ l : List Char, (splitChar sep l).headD [] = l.takeWhile (fun c => c != sep) := by
  intro l
  induction l with
  | nil => simp [splitChar, List.takeWhile]
  | cons c cs ih =>
    by_cases hc : c = sep
    · subst hc
      simp [splitChar, List.takeWhile]
    · simp only [splitChar, if_neg hc, List.takeWhile]
      have hcb : (c != sep) = true := by simp [hc]
      rw [hcb]
      cases h : splitChar sep cs with
      | nil => exact absurd h (splitChar_ne_nil sep cs)
      | cons a t =>
        rw [h] at ih
        simp at ih ⊢
        exact ih

theorem splitChar_append_sep (sep : Char) :
    ∀ (l m : List Char), (∀ c ∈ l, (c != sep) = true) →
    splitChar sep (l ++ sep :: m) = l :: splitChar sep m := by
  intro l
  induction l with
  | nil => intro m _; simp [splitChar]
  | cons c l ih =>
    intro m h
    have hc : ¬ c = sep := by
      have := h c (by simp)
      simpa using this
    simp only [List.cons_append, splitChar, if_neg hc]
    rw [show l.append (sep :: m) = l ++ sep :: m from rfl,
      ih m (fun d hd => h d (by simp [hd]))]

theorem goSplitOn_headD (s : String) (sep : Char) :
    (goSplitOn s sep).headD "" = String.mk (s.data.takeWhile (fun c => c != sep)) := by
  unfold goSplitOn
  cases h : splitChar sep s.data with
  | nil => exact absurd h (splitChar_ne_nil sep s.data)
  | cons a t =>
    have := splitChar_headD sep s.data
    rw [h] at this
    simp at this
    simp [← this]

theorem lookupAssoc_eq_none {α : Type} (m : List (String × α)) (k : String) :
    lookupAssoc m k = none ↔ k ∉ keysOf m := by
  unfold lookupAssoc
  cases hf : m.find? (fun p => p.1 == k) with
  | some p =>
    simp only [iff_false, reduceCtorEq, false_iff]
    have hp := List.find?_some hf
    have hm := List.mem_of_find?_eq_some hf
    intro hk
    apply hk
    simp only [keysOf, List.mem_map]
    exact ⟨p, hm, by simpa using hp⟩
  | none =>
    simp only [true_iff]
    rw [List.find?_eq_none] at hf
    intro hk
    simp only [keysOf, List.mem_map] at hk
    obtain ⟨p, hm, hkey⟩ := hk
    exact absurd (by simpa using hkey.symm ▸ rfl : (p.1 == k) = true) (by simpa using hf p hm)

theorem setAssoc_fresh {α : Type} (m : List (String × α)) (k : String) (v : α)
    (h : k ∉ keysOf m) : setAssoc m k v = m ++ [(k, v)] := by
  unfold setAssoc
  rw [if_neg]
  intro hany
  rw [List.any_eq_true] at hany
  obtain ⟨p, hp, hpk⟩ := hany
  apply h
  simp only [keysOf, List.mem_map]
  exact ⟨p, hp, by simpa using hpk⟩

/-! ### Helper lemmas: the flattener's output -/

theorem entryV_nonstruct {v : GoValue} (key : String) (h : goKind v ≠ .structK) :
    entryV key v = [(key, v)] := by
  cases v <;> first | rfl | exact absurd rfl h

theorem entryV_keys_struct (key : String) (fs : GoFields) :
    keysOf (entryV key (.struct fs))
      = (keysOf (flatListF fs)).map (fun c => key ++ "." ++ c) := by
  simp [entryV, keysOf, List.map_map, Function.comp_def]

theorem entryV_firstSeg {key : String} (v : GoValue) (hk : dotFree key = true) :
    ∀ k ∈ keysOf (entryV key v), firstSegOf k = key := by
  intro k hkin
  cases v with
  | struct fs =>
    rw [entryV_keys_struct] at hkin
    simp only [List.mem_map] at hkin
    obtain ⟨c, _, rfl⟩ := hkin
    exact firstSeg_nested c hk
  | scalar ty r =>
    simp [entryV, keysOf] at hkin; subst hkin; exact firstSeg_dotFree hk
  | slice xs =>
    simp [entryV, keysOf] at hkin; subst hkin; exact firstSeg_dotFree hk
  | array xs =>
    simp [entryV, keysOf] at hkin; subst hkin; exact firstSeg_dotFree hk
  | ptrStruct fs =>
    simp [entryV, keysOf] at hkin; subst hkin; exact firstSeg_dotFree hk
  | ptrStructNil =>
    simp [entryV, keysOf] at hkin; subst hkin; exact firstSeg_dotFree hk
  | ptrOther b =>
    simp [entryV, keysOf] at hkin; subst hkin; exact firstSeg_dotFree hk
  | unsupported r =>
    simp [entryV, keysOf] at hkin; subst hkin; exact firstSeg_dotFree hk

theorem flatListF_flatMap : ∀ fs : GoFields,
    flatListF fs = (fieldsList fs).flatMap (fun f => entryV (keyOfField f) f.2.2)
  | .nil => rfl
  | .cons n t v rest => by
    simp [flatListF, fieldsList, flatListF_flatMap rest, keyOfField]

theorem keysOf_flatListF (fs : GoFields) :
    keysOf (flatListF fs)
      = (fieldsList fs).flatMap (fun f => keysOf (entryV (keyOfField f) f.2.2)) := by
  rw [flatListF_flatMap]
  simp [keysOf, List.map_flatMap]

theorem mem_keys_flatListF {fs : GoFields} {k : String}
    (h : k ∈ keysOf (flatListF fs)) :
    ∃ f ∈ fieldsList fs, k ∈ keysOf (entryV (keyOfField f) f.2.2) := by
  rw [keysOf_flatListF] at h
  simpa using List.mem_flatMap.mp h

theorem firstSeg_mem_level {fs : GoFields}
    (hall : (levelKeys fs).all dotFree = true) :
    ∀ k ∈ keysOf (flatListF fs), firstSegOf k ∈ levelKeys fs := by
  intro k hk
  obtain ⟨f, hf, hkf⟩ := mem_keys_flatListF hk
  have hkey : keyOfField f ∈ levelKeys fs := List.mem_map_of_mem _ hf
  have hdf : dotFree (keyOfField f) = true := List.all_eq_true.mp hall _ hkey
  rw [entryV_firstSeg f.2.2 hdf k hkf]
  exact hkey

theorem block_disjoint {key : String} {v : GoValue} {fs : GoFields}
    (hk : dotFree key = true)
    (hall : (levelKeys fs).all dotFree = true)
    (hnot : key ∉ levelKeys fs) :
    ∀ k, k ∈ keysOf (entryV key v) → k ∈ keysOf (flatListF fs) → False := by
  intro k h1 h2
  have e1 := entryV_firstSeg v hk k h1
  have e2 := firstSeg_mem_level hall k h2
  rw [e1] at e2
  exact hnot e2

theorem levelKeys_cons (n t : String) (v : GoValue) (rest : GoFields) :
    levelKeys (.cons n t v rest) = fieldKeyName n t :: levelKeys rest := rfl

mutual
theorem entryV_keys_nodup : ∀ (key : String) (v : GoValue),
    levelsNodupV v = true → dotFreeKeysV v = true →
    (keysOf (entryV key v)).Nodup
  | _, .scalar _ _, _, _ => by simp [entryV, keysOf]
  | _, .slice _, _, _ => by simp [entryV, keysOf]
  | _, .array _, _, _ => by simp [entryV, keysOf]
  | _, .ptrStruct _, _, _ => by simp [entryV, keysOf]
  | _, .ptrStructNil, _, _ => by simp [entryV, keysOf]
  | _, .ptrOther _, _, _ => by simp [entryV, keysOf]
  | _, .unsupported _, _, _ => by simp [entryV, keysOf]
  | key, .struct sub, hn, hd => by
    rw [entryV_keys_struct]
    have hn' : nodupB (levelKeys sub) = true ∧ levelsNodupF sub = true := by
      simpa [levelsNodupV, Bool.and_eq_true] using hn
    have hd' : (levelKeys sub).all dotFree = true ∧ dotFreeKeysF sub = true := by
      simpa [dotFreeKeysV, Bool.and_eq_true] using hd
    have hrec := flatListF_keys_nodup sub hn'.1 hd'.1 hn'.2 hd'.2
    exact hrec.map (fun a b hab => append_sep_right_inj hab)

theorem flatListF_keys_nodup : ∀ fs : GoFields,
    nodupB (levelKeys fs) = true → (levelKeys fs).all dotFree = true →
    levelsNodupF fs = true → dotFreeKeysF fs = true →
    (keysOf (flatListF fs)).Nodup
  | .nil, _, _, _, _ => by simp [flatListF, keysOf]
  | .cons n t v rest, h1, h2, h3, h4 => by
    have hnl : (fieldKeyName n t :: levelKeys rest).Nodup := by
      have := of_decide_eq_true h1
      rwa [levelKeys_cons] at this
    have hknr : fieldKeyName n t ∉ levelKeys rest := (List.nodup_cons.mp hnl).1
    have hnr : nodupB (levelKeys rest) = true :=
      decide_eq_true (List.nodup_cons.mp hnl).2
    have h2' : dotFree (fieldKeyName n t) = true ∧ (levelKeys rest).all dotFree = true := by
      rw [levelKeys_cons] at h2
      simpa [Bool.and_eq_true] using h2
    have h3' : levelsNodupV v = true ∧ levelsNodupF rest = true := by
      simpa [levelsNodupF, Bool.and_eq_true] using h3
    have h4' : dotFreeKeysV v = true ∧ dotFreeKeysF rest = true := by
      simpa [dotFreeKeysF, Bool.and_eq_true] using h4
    have hfl : flatListF (.cons n t v rest)
        = entryV (fieldKeyName n t) v ++ flatListF rest := rfl
    rw [hfl]
    have hka : keysOf (entryV (fieldKeyName n t) v ++ flatListF rest)
        = keysOf (entryV (fieldKeyName n t) v) ++ keysOf (flatListF rest) := by
      simp [keysOf]
    rw [hka, List.nodup_append]
    refine ⟨entryV_keys_nodup (fieldKeyName n t) v h3'.1 h4'.1,
      flatListF_keys_nodup rest hnr h2'.2 h3'.2 h4'.2, ?_⟩
    intro k hk1 hk2
    exact block_disjoint h2'.1 h2'.2 hknr k hk1 hk2
end

mutual
theorem entryV_length : ∀ (key : String) (v : GoValue),
    (entryV key v).length = terminalCountV v
  | _, .scalar _ _ => rfl
  | _, .slice _ => rfl
  | _, .array _ => rfl
  | _, .ptrStruct _ => rfl
  | _, .ptrStructNil => rfl
  | _, .ptrOther _ => rfl
  | _, .unsupported _ => rfl
  | key, .struct sub => by
    simp [entryV, terminalCountV, flatListF_length sub]

theorem flatListF_length : ∀ fs : GoFields,
    (flatListF fs).length = terminalCountF fs
  | .nil => rfl
  | .cons n t v rest => by
    simp [flatListF, terminalCountF, entryV_length (fieldKeyName n t) v,
      flatListF_length rest]
end

theorem predsF_of_mem : ∀ (fs : GoFields) (f : String × String × GoValue),
    f ∈ fieldsList fs → levelsNodupF fs = true → dotFreeKeysF fs = true →
    levelsNodupV f.2.2 = true ∧ dotFreeKeysV f.2.2 = true
  | .nil, f, h, _, _ => by simp [fieldsList] at h
  | .cons n t v rest, f, h, h3, h4 => by
    have h3' : levelsNodupV v = true ∧ levelsNodupF rest = true := by
      simpa [levelsNodupF, Bool.and_eq_true] using h3
    have h4' : dotFreeKeysV v = true ∧ dotFreeKeysF rest = true := by
      simpa [dotFreeKeysF, Bool.and_eq_true] using h4
    rcases (by simpa [fieldsList] using h : f = (n, t, v) ∨ f ∈ fieldsList rest)
      with hf | hf
    · subst hf; exact ⟨h3'.1, h4'.1⟩
    · exact predsF_of_mem rest f hf h3'.2 h4'.2

theorem foldl_setAssoc_append (p : String) :
    ∀ (L acc : List (String × GoValue)),
    (∀ kv ∈ L, (p ++ "." ++ kv.1) ∉ keysOf acc) →
    (L.map (fun kv => p ++ "." ++ kv.1)).Nodup →
    L.foldl (fun r kv => setAssoc r (p ++ "." ++ kv.1) kv.2) acc
      = acc ++ L.map (fun kv => (p ++ "." ++ kv.1, kv.2))
  | [], acc, _, _ => by simp
  | kv :: L, acc, hfresh, hnd => by
    simp only [List.foldl_cons, List.map_cons]
    rw [setAssoc_fresh _ _ _ (hfresh kv (by simp))]
    have hnd' := List.nodup_cons.mp hnd
    have hfresh2 : ∀ kv' ∈ L,
        (p ++ "." ++ kv'.1) ∉ keysOf (acc ++ [(p ++ "." ++ kv.1, kv.2)]) := by
      intro kv' hkv'
      simp only [keysOf, List.map_append, List.mem_append]
      rintro (hin | hin)
      · exact hfresh kv' (by simp [hkv']) hin
      · simp only [List.map_cons, List.map_nil, List.mem_singleton] at hin
        have heq : kv'.1 = kv.1 := append_sep_right_inj hin
        apply hnd'.1
        have hmm := List.mem_map_of_mem (fun kv => p ++ "." ++ kv.1) hkv'
        simpa [heq] using hmm
    rw [foldl_setAssoc_append p L (acc ++ [(p ++ "." ++ kv.1, kv.2)]) hfresh2 hnd'.2]
    simp

theorem flattenFields_eq : ∀ (fs : GoFields) (acc : List (String × GoValue)),
    nodupB (levelKeys fs) = true → (levelKeys fs).all dotFree = true →
    levelsNodupF fs = true → dotFreeKeysF fs = true →
    (∀ k ∈ keysOf (flatListF fs), k ∉ keysOf acc) →
    flattenFields fs acc = acc ++ flatListF fs
  | .nil, acc, _, _, _, _, _ => by simp [flattenFields, flatListF]
  | .cons n t v rest, acc, h1, h2, h3, h4, hfresh => by
    have hnl : (fieldKeyName n t :: levelKeys rest).Nodup := by
      have := of_decide_eq_true h1
      rwa [levelKeys_cons] at this
    have hknr : fieldKeyName n t ∉ levelKeys rest := (List.nodup_cons.mp hnl).1
    have hnr : nodupB (levelKeys rest) = true :=
      decide_eq_true (List.nodup_cons.mp hnl).2
    have h2' : dotFree (fieldKeyName n t) = true ∧ (levelKeys rest).all dotFree = true := by
      rw [levelKeys_cons] at h2
      simpa [Bool.and_eq_true] using h2
    have h3' : levelsNodupV v = true ∧ levelsNodupF rest = true := by
      simpa [levelsNodupF, Bool.and_eq_true] using h3
    have h4' : dotFreeKeysV v = true ∧ dotFreeKeysF rest = true := by
      simpa [dotFreeKeysF, Bool.and_eq_true] using h4
    have hfl : flatListF (.cons n t v rest)
        = entryV (fieldKeyName n t) v ++ flatListF rest := rfl
    have hfreshE : ∀ k ∈ keysOf (entryV (fieldKeyName n t) v), k ∉ keysOf acc := by
      intro k hk
      apply hfresh
      rw [hfl]
      simp only [keysOf, List.map_append, List.mem_append]
      exact Or.inl hk
    have hfreshR : ∀ k ∈ keysOf (flatListF rest), k ∉ keysOf acc := by
      intro k hk
      apply hfresh
      rw [hfl]
      simp only [keysOf, List.map_append, List.mem_append]
      exact Or.inr hk
    cases v with
    | struct sub =>
      have hn' : nodupB (levelKeys sub) = true ∧ levelsNodupF sub = true := by
        simpa [levelsNodupV, Bool.and_eq_true] using h3'.1
      have hd' : (levelKeys sub).all dotFree = true ∧ dotFreeKeysF sub = true := by
        simpa [dotFreeKeysV, Bool.and_eq_true] using h4'.1
      have hsub : flattenFields sub [] = flatListF sub := by
        have := flattenFields_eq sub [] hn'.1 hd'.1 hn'.2 hd'.2 (by simp [keysOf])
        simpa using this
      have hstep : flattenFields (.cons n t (.struct sub) rest) acc
          = flattenFields rest
              ((flattenFields sub []).foldl
                (fun r kv => setAssoc r (fieldKeyName n t ++ "." ++ kv.1) kv.2) acc) := rfl
      rw [hstep, hsub]
      have hmapkeys : keysOf (entryV (fieldKeyName n t) (.struct sub))
          = (flatListF sub).map (fun kv => fieldKeyName n t ++ "." ++ kv.1) := by
        simp [entryV, keysOf, List.map_map, Function.comp_def]
      have hA : ∀ kv ∈ flatListF sub,
          (fieldKeyName n t ++ "." ++ kv.1) ∉ keysOf acc := by
        intro kv hkv
        apply hfreshE
        rw [hmapkeys]
        exact List.mem_map_of_mem _ hkv
      have hB : ((flatListF sub).map (fun kv => fieldKeyName n t ++ "." ++ kv.1)).Nodup := by
        rw [← hmapkeys]
        exact entryV_keys_nodup (fieldKeyName n t) (.struct sub) h3'.1 h4'.1
      rw [foldl_setAssoc_append (fieldKeyName n t) (flatListF sub) acc hA hB]
      have hEnt : (flatListF sub).map (fun kv => (fieldKeyName n t ++ "." ++ kv.1, kv.2))
          = entryV (fieldKeyName n t) (.struct sub) := rfl
      rw [hEnt]
      have hfresh' : ∀ k ∈ keysOf (flatListF rest),
          k ∉ keysOf (acc ++ entryV (fieldKeyName n t) (.struct sub)) := by
        intro k hk
        simp only [keysOf, List.map_append, List.mem_append]
        rintro (hin | hin)
        · exact hfreshR k hk hin
        · exact block_disjoint h2'.1 h2'.2 hknr k hin hk
      rw [flattenFields_eq rest (acc ++ entryV (fieldKeyName n t) (.struct sub))
        hnr h2'.2 h3'.2 h4'.2 hfresh']
      rw [hfl, List.append_assoc]
    | scalar ty r =>
      have hstep : flattenFields (.cons n t (.scalar ty r) rest) acc
          = flattenFields rest (setAssoc acc (fieldKeyName n t) (.scalar ty r)) := rfl
      have hkeyfresh : fieldKeyName n t ∉ keysOf acc :=
        hfreshE (fieldKeyName n t) (by simp [entryV, keysOf])
      rw [hstep, setAssoc_fresh _ _ _ hkeyfresh]
      have hfresh' : ∀ k ∈ keysOf (flatListF rest),
          k ∉ keysOf (acc ++ [(fieldKeyName n t, GoValue.scalar ty r)]) := by
        intro k hk
        simp only [keysOf, List.map_append, List.mem_append]
        rintro (hin | hin)
        · exact hfreshR k hk hin
        · simp only [List.map_cons, List.map_nil, List.mem_singleton] at hin
          exact block_disjoint (v := GoValue.scalar ty r) h2'.1 h2'.2 hknr k
            (by rw [hin]; simp [entryV, keysOf]) hk
      rw [flattenFields_eq rest (acc ++ [(fieldKeyName n t, GoValue.scalar ty r)])
        hnr h2'.2 h3'.2 h4'.2 hfresh']
      rw [hfl, List.append_assoc]
      rfl
    | slice xs =>
      have hstep : flattenFields (.cons n t (.slice xs) rest) acc
          = flattenFields rest (setAssoc acc (fieldKeyName n t) (.slice xs)) := rfl
      have hkeyfresh : fieldKeyName n t ∉ keysOf acc :=
        hfreshE (fieldKeyName n t) (by simp [entryV, keysOf])
      rw [hstep, setAssoc_fresh _ _ _ hkeyfresh]
      have hfresh' : ∀ k ∈ keysOf (flatListF rest),
          k ∉ keysOf (acc ++ [(fieldKeyName n t, GoValue.slice xs)]) := by
        intro k hk
        simp only [keysOf, List.map_append, List.mem_append]
        rintro (hin | hin)
        · exact hfreshR k hk hin
        · simp only [List.map_cons, List.map_nil, List.mem_singleton] at hin
          exact block_disjoint (v := GoValue.slice xs) h2'.1 h2'.2 hknr k
            (by rw [hin]; simp [entryV, keysOf]) hk
      rw [flattenFields_eq rest (acc ++ [(fieldKeyName n t, GoValue.slice xs)])
        hnr h2'.2 h3'.2 h4'.2 hfresh']
      rw [hfl, List.append_assoc]
      rfl
    | array xs =>
      have hstep : flattenFields (.cons n t (.array xs) rest) acc
          = flattenFields rest (setAssoc acc (fieldKeyName n t) (.array xs)) := rfl
      have hkeyfresh : fieldKeyName n t ∉ keysOf acc :=
        hfreshE (fieldKeyName n t) (by simp [entryV, keysOf])
      rw [hstep, setAssoc_fresh _ _ _ hkeyfresh]
      have hfresh' : ∀ k ∈ keysOf (flatListF rest),
          k ∉ keysOf (acc ++ [(fieldKeyName n t, GoValue.array xs)]) := by
        intro k hk
        simp only [keysOf, List.map_append, List.mem_append]
        rintro (hin | hin)
        · exact hfreshR k hk hin
        · simp only [List.map_cons, List.map_nil, List.mem_singleton] at hin
          exact block_disjoint (v := GoValue.array xs) h2'.1 h2'.2 hknr k
            (by rw [hin]; simp [entryV, keysOf]) hk
      rw [flattenFields_eq rest (acc ++ [(fieldKeyName n t, GoValue.array xs)])
        hnr h2'.2 h3'.2 h4'.2 hfresh']
      rw [hfl, List.append_assoc]
      rfl
    | ptrStruct sub =>
      have hstep : flattenFields (.cons n t (.ptrStruct sub) rest) acc
          = flattenFields rest (setAssoc acc (fieldKeyName n t) (.ptrStruct sub)) := rfl
      have hkeyfresh : fieldKeyName n t ∉ keysOf acc :=
        hfreshE (fieldKeyName n t) (by simp [entryV, keysOf])
      rw [hstep, setAssoc_fresh _ _ _ hkeyfresh]
      have hfresh' : ∀ k ∈ keysOf (flatListF rest),
          k ∉ keysOf (acc ++ [(fieldKeyName n t, GoValue.ptrStruct sub)]) := by
        intro k hk
        simp only [keysOf, List.map_append, List.mem_append]
        rintro (hin | hin)
        · exact hfreshR k hk hin
        · simp only [List.map_cons, List.map_nil, List.mem_singleton] at hin
          exact block_disjoint (v := GoValue.ptrStruct sub) h2'.1 h2'.2 hknr k
            (by rw [hin]; simp [entryV, keysOf]) hk
      rw [flattenFields_eq rest (acc ++ [(fieldKeyName n t, GoValue.ptrStruct sub)])
        hnr h2'.2 h3'.2 h4'.2 hfresh']
      rw [hfl, List.append_assoc]
      rfl
    | ptrStructNil =>
      have hstep : flattenFields (.cons n t .ptrStructNil rest) acc
          = flattenFields rest (setAssoc acc (fieldKeyName n t) .ptrStructNil) := rfl
      have hkeyfresh : fieldKeyName n t ∉ keysOf acc :=
        hfreshE (fieldKeyName n t) (by simp [entryV, keysOf])
      rw [hstep, setAssoc_fresh _ _ _ hkeyfresh]
      have hfresh' : ∀ k ∈ keysOf (flatListF rest),
          k ∉ keysOf (acc ++ [(fieldKeyName n t, GoValue.ptrStructNil)]) := by
        intro k hk
        simp only [keysOf, List.map_append, List.mem_append]
        rintro (hin | hin)
        · exact hfreshR k hk hin
        · simp only [List.map_cons, List.map_nil, List.mem_singleton] at hin
          exact block_disjoint (v := GoValue.ptrStructNil) h2'.1 h2'.2 hknr k
            (by rw [hin]; simp [entryV, keysOf]) hk
      rw [flattenFields_eq rest (acc ++ [(fieldKeyName n t, GoValue.ptrStructNil)])
        hnr h2'.2 h3'.2 h4'.2 hfresh']
      rw [hfl, List.append_assoc]
      rfl
    | ptrOther b =>
      have hstep : flattenFields (.cons n t (.ptrOther b) rest) acc
          = flattenFields rest (setAssoc acc (fieldKeyName n t) (.ptrOther b)) := rfl
      have hkeyfresh : fieldKeyName n t ∉ keysOf acc :=
        hfreshE (fieldKeyName n t) (by simp [entryV, keysOf])
      rw [hstep, setAssoc_fresh _ _ _ hkeyfresh]
      have hfresh' : ∀ k ∈ keysOf (flatListF rest),
          k ∉ keysOf (acc ++ [(fieldKeyName n t, GoValue.ptrOther b)]) := by
        intro k hk
        simp only [keysOf, List.map_append, List.mem_append]
        rintro (hin | hin)
        · exact hfreshR k hk hin
        · simp only [List.map_cons, List.map_nil, List.mem_singleton] at hin
          exact block_disjoint (v := GoValue.ptrOther b) h2'.1 h2'.2 hknr k
            (by rw [hin]; simp [entryV, keysOf]) hk
      rw [flattenFields_eq rest (acc ++ [(fieldKeyName n t, GoValue.ptrOther b)])
        hnr h2'.2 h3'.2 h4'.2 hfresh']
      rw [hfl, List.append_assoc]
      rfl
    | unsupported r =>
      have hstep : flattenFields (.cons n t (.unsupported r) rest) acc
          = flattenFields rest (setAssoc acc (fieldKeyName n t) (.unsupported r)) := rfl
      have hkeyfresh : fieldKeyName n t ∉ keysOf acc :=
        hfreshE (fieldKeyName n t) (by simp [entryV, keysOf])
      rw [hstep, setAssoc_fresh _ _ _ hkeyfresh]
      have hfresh' : ∀ k ∈ keysOf (flatListF rest),
          k ∉ keysOf (acc ++ [(fieldKeyName n t, GoValue.unsupported r)]) := by
        intro k hk
        simp only [keysOf, List.map_append, List.mem_append]
        rintro (hin | hin)
        · exact hfreshR k hk hin
        · simp only [List.map_cons, List.map_nil, List.mem_singleton] at hin
          exact block_disjoint (v := GoValue.unsupported r) h2'.1 h2'.2 hknr k
            (by rw [hin]; simp [entryV, keysOf]) hk
      rw [flattenFields_eq rest (acc ++ [(fieldKeyName n t, GoValue.unsupported r)])
        hnr h2'.2 h3'.2 h4'.2 hfresh']
      rw [hfl, List.append_assoc]
      rfl

/-! ### Helper lemmas: the Struct Assigner and the Nested Reconstructor -/

theorem assign_cons_fst (tree : List (String × NestedTree)) (n t : String)
    (v : GoValue) (rest : GoFields) :
    ∃ v2, (AssignMapToStruct tree (.cons n t v rest)).1
      = .cons n t v2 (AssignMapToStruct tree rest).1 := by
  cases hl : lookupAssoc tree (fieldKeyName n t) with
  | none => exact ⟨v, by simp [AssignMapToStruct, hl]⟩
  | some tr =>
    cases tr with
    | leaf s =>
      cases hc : coerceLeaf s v with
      | ok v2 => exact ⟨v2, by simp [AssignMapToStruct, hl, hc]⟩
      | error e => exact ⟨v, by simp [AssignMapToStruct, hl, hc]⟩
    | branch ch =>
      cases v with
      | struct fs =>
        exact ⟨.struct (AssignMapToStruct ch fs).1, by simp [AssignMapToStruct, hl]⟩
      | scalar ty r => exact ⟨.scalar ty r, by simp [AssignMapToStruct, hl]⟩
      | slice xs => exact ⟨.slice xs, by simp [AssignMapToStruct, hl]⟩
      | array xs => exact ⟨.array xs, by simp [AssignMapToStruct, hl]⟩
      | ptrStruct fs => exact ⟨.ptrStruct fs, by simp [AssignMapToStruct, hl]⟩
      | ptrStructNil => exact ⟨.ptrStructNil, by simp [AssignMapToStruct, hl]⟩
      | ptrOther b => exact ⟨.ptrOther b, by simp [AssignMapToStruct, hl]⟩
      | unsupported r => exact ⟨.unsupported r, by simp [AssignMapToStruct, hl]⟩

theorem assign_getD : ∀ (tree : List (String × NestedTree)) (fs : GoFields)
    (i : Nat) (d : String × String × GoValue),
    lookupAssoc tree (keyOfField ((fieldsList fs).getD i d)) = none →
    (fieldsList (AssignMapToStruct tree fs).1).getD i d = (fieldsList fs).getD i d
  | tree, .nil, i, d, _ => by simp [AssignMapToStruct, fieldsList]
  | tree, .cons n t v rest, 0, d, h => by
    have h0 : lookupAssoc tree (fieldKeyName n t) = none := by
      simpa [fieldsList, keyOfField] using h
    simp [AssignMapToStruct, h0, fieldsList]
  | tree, .cons n t v rest, i + 1, d, h => by
    have h' : lookupAssoc tree (keyOfField ((fieldsList rest).getD i d)) = none := by
      simpa [fieldsList] using h
    obtain ⟨v2, hv2⟩ := assign_cons_fst tree n t v rest
    rw [hv2]
    have hs : fieldsList (GoFields.cons n t v2 (AssignMapToStruct tree rest).1)
        = (n, t, v2) :: fieldsList (AssignMapToStruct tree rest).1 := rfl
    rw [hs]
    simp only [fieldsList, List.getD_cons_succ]
    exact assign_getD tree rest i d h'

theorem goSplitOn_ne_nil (s : String) (sep : Char) : goSplitOn s sep ≠ [] := by
  unfold goSplitOn
  intro h
  exact splitChar_ne_nil sep s.data (by simpa using h)

theorem splitOn_apps (s : String) :
    goSplitOn ("apps." ++ s) '.' = "apps" :: goSplitOn s '.' := by
  unfold goSplitOn
  have hd : ("apps." ++ s).data = ['a', 'p', 'p', 's'] ++ '.' :: s.data := by
    simp [String.data_append]
  rw [hd, splitChar_append_sep '.' ['a', 'p', 'p', 's'] s.data (by decide)]
  rfl

theorem convert_single_apps (appID fld v : String) :
    ∃ tr, ConvertFlatToNested [("apps." ++ appID ++ "." ++ fld, v)] = [("apps", tr)] := by
  have hassoc : "apps." ++ appID ++ "." ++ fld = "apps." ++ (appID ++ "." ++ fld) := by
    simp [String.append_assoc]
  have h0 : ConvertFlatToNested [("apps." ++ appID ++ "." ++ fld, v)]
      = insertPath [] (goSplitOn ("apps." ++ appID ++ "." ++ fld) '.') v := rfl
  rw [h0, hassoc, splitOn_apps]
  cases hsp : goSplitOn (appID ++ "." ++ fld) '.' with
  | nil => exact absurd hsp (goSplitOn_ne_nil _ _)
  | cons c cs => exact ⟨.branch (insertPath [] (c :: cs) v), rfl⟩

theorem lookup_convert_single_apps (appID fld v k : String) (hk : k ≠ "apps") :
    lookupAssoc (ConvertFlatToNested [("apps." ++ appID ++ "." ++ fld, v)]) k = none := by
  obtain ⟨tr, htr⟩ := convert_single_apps appID fld v
  rw [htr]
  rw [lookupAssoc_eq_none]
  simp only [keysOf, List.map_cons, List.map_nil, List.mem_singleton]
  exact fun h => hk h

/-! ### Helper lemmas: the setApp write loop -/

theorem setAppLoop_cons_ok {store : StoreModel} {appID : String}
    (e : String × GoValue) (rest : List (String × GoValue)) (st : LoopState)
    (h : entryOk store appID e = true) :
    setAppLoop store appID (e :: rest) st
      = setAppLoop store appID rest (applyEntry store appID st e) := by
  obtain ⟨k, v⟩ := e
  cases v with
  | slice xs =>
    simp only [entryOk, encodeEntry, goKind] at h
    cases hm : jsonMarshal (.slice xs) with
    | error e' => rw [hm] at h; simp at h
    | ok m =>
      rw [hm] at h
      simp only [Option.isNone_iff_eq_none] at h
      simp [setAppLoop, goKind, hm, applyEntry, setAppOption, goSprintf, h]
  | array xs =>
    simp only [entryOk, encodeEntry, goKind] at h
    cases hm : jsonMarshal (.array xs) with
    | error e' => rw [hm] at h; simp at h
    | ok m =>
      rw [hm] at h
      simp only [Option.isNone_iff_eq_none] at h
      simp [setAppLoop, goKind, hm, applyEntry, setAppOption, goSprintf, h]
  | scalar ty r =>
    simp only [entryOk, encodeEntry, goKind, Option.isNone_iff_eq_none] at h
    simp [setAppLoop, goKind, applyEntry, setAppOption, h]
  | struct fs =>
    simp only [entryOk, encodeEntry, goKind, Option.isNone_iff_eq_none] at h
    simp [setAppLoop, goKind, applyEntry, setAppOption, h]
  | ptrStruct fs =>
    simp only [entryOk, encodeEntry, goKind, Option.isNone_iff_eq_none] at h
    simp [setAppLoop, goKind, applyEntry, setAppOption, h]
  | ptrStructNil =>
    simp only [entryOk, encodeEntry, goKind, Option.isNone_iff_eq_none] at h
    simp [setAppLoop, goKind, applyEntry, setAppOption, h]
  | ptrOther b =>
    simp only [entryOk, encodeEntry, goKind, Option.isNone_iff_eq_none] at h
    simp [setAppLoop, goKind, applyEntry, setAppOption, h]
  | unsupported r =>
    simp only [entryOk, encodeEntry, goKind, Option.isNone_iff_eq_none] at h
    simp [setAppLoop, goKind, applyEntry, setAppOption, h]

theorem setAppLoop_cons_fail {store : StoreModel} {appID : String}
    (k : String) (v : GoValue) (rest : List (String × GoValue)) (st : LoopState)
    (enc e : String)
    (henc : encodeEntry v = .ok enc)
    (herr : store.writeErr ("apps." ++ appID ++ "." ++ k) enc = some e) :
    setAppLoop store appID ((k, v) :: rest) st = (st, .serverError e) := by
  cases v with
  | slice xs =>
    simp only [encodeEntry, goKind] at henc
    simp [setAppLoop, goKind, henc, setAppOption, goSprintf, herr]
  | array xs =>
    simp only [encodeEntry, goKind] at henc
    simp [setAppLoop, goKind, henc, setAppOption, goSprintf, herr]
  | scalar ty r =>
    simp only [encodeEntry, goKind, Except.ok.injEq] at henc
    subst henc
    simp [setAppLoop, goKind, setAppOption, herr]
  | struct fs =>
    simp only [encodeEntry, goKind, Except.ok.injEq] at henc
    subst henc
    simp [setAppLoop, goKind, setAppOption, herr]
  | ptrStruct fs =>
    simp only [encodeEntry, goKind, Except.ok.injEq] at henc
    subst henc
    simp [setAppLoop, goKind, setAppOption, herr]
  | ptrStructNil =>
    simp only [encodeEntry, goKind, Except.ok.injEq] at henc
    subst henc
    simp [setAppLoop, goKind, setAppOption, herr]
  | ptrOther b =>
    simp only [encodeEntry, goKind, Except.ok.injEq] at henc
    subst henc
    simp [setAppLoop, goKind, setAppOption, herr]
  | unsupported r =>
    simp only [encodeEntry, goKind, Except.ok.injEq] at henc
    subst henc
    simp [setAppLoop, goKind, setAppOption, herr]

/-! ### The claims -/

/-- C1: merging the tree reconstructed from the single key written by
`setAppOption` into a live configuration object changes only the field
addressed by that key: for any tree, any field whose canonical key is
absent from the tree (at its level) keeps its previous value, and the
singleton tree built from `"apps." + appID + "." + field` carries the
single top-level key `"apps"`, so every top-level field whose canonical
key differs from `apps` is untouched. -/
theorem claim_C1_partial_update :
    (∀ (tree : List (String × NestedTree)) (fs : GoFields) (i : Nat)
      (d : String × String × GoValue),
      i < (fieldsList fs).length →
      lookupAssoc tree (keyOfField ((fieldsList fs).getD i d)) = none →
      (fieldsList (AssignMapToStruct tree fs).1).getD i d
        = (fieldsList fs).getD i d) ∧
    (∀ (appID fld v : String) (fs : GoFields) (i : Nat)
      (d : String × String × GoValue),
      i < (fieldsList fs).length →
      keyOfField ((fieldsList fs).getD i d) ≠ "apps" →
      (fieldsList (AssignMapToStruct
          (ConvertFlatToNested [("apps." ++ appID ++ "." ++ fld, v)]) fs).1).getD i d
        = (fieldsList fs).getD i d) := by
  constructor
  · intro tree fs i d _ h
    exact assign_getD tree fs i d h
  · intro appID fld v fs i d _ hne
    exact assign_getD _ fs i d (lookup_convert_single_apps appID fld v _ hne)

/-- C1 witness: assigning the single key `apps.test.active` leaves the
sibling top-level field `port` of the configuration unchanged. -/
theorem claim_C1_witness :
    (1 < (fieldsList wCfg).length ∧
      keyOfField ((fieldsList wCfg).getD 1 ("", "", .ptrStructNil)) ≠ "apps") ∧
    (fieldsList (AssignMapToStruct
        (ConvertFlatToNested [("apps." ++ "test" ++ "." ++ "active", "true")])
        wCfg).1).getD 1 ("", "", .ptrStructNil)
      = (fieldsList wCfg).getD 1 ("", "", .ptrStructNil) :=
  ⟨⟨by decide, by decide⟩,
    claim_C1_partial_update.2 "test" "active" "true" wCfg 1 ("", "", .ptrStructNil)
      (by decide) (by decide)⟩

/-- C2: when the store write for one entry of the `setApp` sequence
fails, the loop stops at that entry with exactly that error reported as
the response, and the final state is exactly the state after the
earlier entries' successful writes — the earlier writes remain
persisted and nothing is rolled back. -/
theorem claim_C2_no_rollback (store : StoreModel) (appID : String) :
    ∀ (pre : List (String × GoValue)) (k : String) (v : GoValue)
      (post : List (String × GoValue)) (st : LoopState) (enc e : String),
    pre.all (entryOk store appID) = true →
    encodeEntry v = .ok enc →
    store.writeErr ("apps." ++ appID ++ "." ++ k) enc = some e →
    setAppLoop store appID (pre ++ (k, v) :: post) st
      = (pre.foldl (applyEntry store appID) st, .serverError e)
  | [], k, v, post, st, enc, e, _, henc, herr => by
    simpa using setAppLoop_cons_fail k v post st enc e henc herr
  | p :: pre, k, v, post, st, enc, e, hall, henc, herr => by
    have h1 : entryOk store appID p = true ∧ pre.all (entryOk store appID) = true := by
      simpa [List.all_cons, Bool.and_eq_true] using hall
    rw [List.cons_append, setAppLoop_cons_ok p (pre ++ (k, v) :: post) st h1.1]
    rw [claim_C2_no_rollback store appID pre k v post
      (applyEntry store appID st p) enc e h1.2 henc herr]
    simp

/-- C2 witness: with a store rejecting exactly `apps.test.bad`, running
the loop over the entries title, bad, x stops at `bad`, reports `boom`
once, and keeps the state produced by the successful `title` write. -/
theorem claim_C2_witness :
    ([("title", GoValue.scalar .stringT "T2")].all (entryOk wStoreBad "test") = true ∧
      encodeEntry (.scalar .boolT "true") = .ok "true" ∧
      wStoreBad.writeErr ("apps." ++ "test" ++ "." ++ "bad") "true" = some "boom") ∧
    setAppLoop wStoreBad "test"
      ([("title", .scalar .stringT "T2")] ++
        ("bad", .scalar .boolT "true") :: [("x", .scalar .intT "1")]) wState
      = ([("title", GoValue.scalar .stringT "T2")].foldl (applyEntry wStoreBad "test") wState,
         .serverError "boom") :=
  ⟨⟨rfl, rfl, rfl⟩,
    claim_C2_no_rollback wStoreBad "test"
      [("title", .scalar .stringT "T2")] "bad" (.scalar .boolT "true")
      [("x", .scalar .intT "1")] wState "true" "boom" rfl rfl rfl⟩

/-- C3: the canonical flat-key segment equals the json-tag alias when
the tag is present, non-empty and not the omit marker, keeping only the
part before the first comma; otherwise it equals the declared field
name; and `structToFlatMap` keys a field by exactly this rule. -/
theorem claim_C3_key_naming (declName jsonTag : String) :
    (jsonTag ≠ "" ∧ jsonTag ≠ "-" →
      fieldKeyName declName jsonTag
        = String.mk (jsonTag.data.takeWhile (fun c => c != ','))) ∧
    (jsonTag = "" ∨ jsonTag = "-" → fieldKeyName declName jsonTag = declName) ∧
    (∀ ty r, structToFlatMap (.struct (.cons declName jsonTag (.scalar ty r) .nil))
      = some [(fieldKeyName declName jsonTag, .scalar ty r)]) := by
  refine ⟨?_, ?_, ?_⟩
  · intro h
    unfold fieldKeyName
    rw [if_neg (by simp [h.1, h.2])]
    exact goSplitOn_headD jsonTag ','
  · intro h
    unfold fieldKeyName
    rw [if_pos h]
  · intro ty r
    rfl

/-- C3 witness: the tag `dark_color,omitempty` keys as `dark_color`,
an absent tag falls back to the declared name. -/
theorem claim_C3_witness :
    (("dark_color,omitempty" : String) ≠ "" ∧
      ("dark_color,omitempty" : String) ≠ "-") ∧
    fieldKeyName "DarkColor" "dark_color,omitempty" = "dark_color" ∧
    fieldKeyName "Active" "" = "Active" :=
  ⟨⟨by decide, by decide⟩,
    (claim_C3_key_naming "DarkColor" "dark_color,omitempty").1 ⟨by decide, by decide⟩,
    (claim_C3_key_naming "Active" "").2.1 (Or.inl rfl)⟩

/-- C4 counterexample: this struct satisfies the claim's hypothesis —
no duplicate canonical key at any level (`A.B` and `A` at the top, `B`
inside) — yet it has two terminal fields and `structToFlatMap` returns
a single entry: the dotted json alias `A.B` collides with the composed
key of the nested field, and the later map write overwrites the
earlier one. -/
theorem claim_C4_counterexample :
    levelsNodupV (.struct cexFields) = true ∧
    terminalCountF cexFields = 2 ∧
    structToFlatMap (.struct cexFields) = some [("A.B", .scalar .intT "2")] :=
  ⟨rfl, rfl, rfl⟩

/-- C4 (amended): for a struct with no duplicate canonical key at any
level and no canonical key containing the separator `.`,
`structToFlatMap` returns exactly one entry per terminal (non-struct)
field; every child entry of a struct field appears re-keyed under
`parentKey + "." + childKey`, and every non-struct field is stored
unchanged under its own key. -/
theorem claim_C4_flattener_recursion (fs : GoFields)
    (hn : levelsNodupV (.struct fs) = true)
    (hd : dotFreeKeysV (.struct fs) = true) :
    ∃ m, structToFlatMap (.struct fs) = some m ∧
      m.length = terminalCountF fs ∧
      (∀ n t sub, (n, t, GoValue.struct sub) ∈ fieldsList fs →
        ∀ kv ∈ flattenFields sub [],
          (fieldKeyName n t ++ "." ++ kv.1, kv.2) ∈ m) ∧
      (∀ n t v, (n, t, v) ∈ fieldsList fs → goKind v ≠ .structK →
        (fieldKeyName n t, v) ∈ m) := by
  have hn' : nodupB (levelKeys fs) = true ∧ levelsNodupF fs = true := by
    simpa [levelsNodupV, Bool.and_eq_true] using hn
  have hd' : (levelKeys fs).all dotFree = true ∧ dotFreeKeysF fs = true := by
    simpa [dotFreeKeysV, Bool.and_eq_true] using hd
  have hflat : flattenFields fs [] = flatListF fs := by
    simpa using flattenFields_eq fs [] hn'.1 hd'.1 hn'.2 hd'.2 (by simp [keysOf])
  refine ⟨flattenFields fs [], rfl, ?_, ?_, ?_⟩
  · rw [hflat, flatListF_length]
  · intro n t sub hmem kv hkv
    have hpreds := predsF_of_mem fs (n, t, .struct sub) hmem hn'.2 hd'.2
    have hsubn : nodupB (levelKeys sub) = true ∧ levelsNodupF sub = true := by
      simpa [levelsNodupV, Bool.and_eq_true] using hpreds.1
    have hsubd : (levelKeys sub).all dotFree = true ∧ dotFreeKeysF sub = true := by
      simpa [dotFreeKeysV, Bool.and_eq_true] using hpreds.2
    have hsubflat : flattenFields sub [] = flatListF sub := by
      simpa using flattenFields_eq sub [] hsubn.1 hsubd.1 hsubn.2 hsubd.2
        (by simp [keysOf])
    rw [hsubflat] at hkv
    rw [hflat, flatListF_flatMap, List.mem_flatMap]
    refine ⟨(n, t, .struct sub), hmem, ?_⟩
    simp only [entryV, keyOfField, List.mem_map]
    exact ⟨kv, hkv, rfl⟩
  · intro n t v hmem hns
    rw [hflat, flatListF_flatMap, List.mem_flatMap]
    refine ⟨(n, t, v), hmem, ?_⟩
    rw [show keyOfField (n, t, v) = fieldKeyName n t from rfl,
      entryV_nonstruct _ hns]
    simp

/-- C4 witness: the amended hypotheses hold for the Outer/Inner
example and the flattener invariant follows. -/
theorem claim_C4_witness :
    (levelsNodupV (.struct c4Fields) = true ∧
      dotFreeKeysV (.struct c4Fields) = true) ∧
    (∃ m, structToFlatMap (.struct c4Fields) = some m ∧
      m.length = terminalCountF c4Fields ∧
      (∀ n t sub, (n, t, GoValue.struct sub) ∈ fieldsList c4Fields →
        ∀ kv ∈ flattenFields sub [],
          (fieldKeyName n t ++ "." ++ kv.1, kv.2) ∈ m) ∧
      (∀ n t v, (n, t, v) ∈ fieldsList c4Fields → goKind v ≠ .structK →
        (fieldKeyName n t, v) ∈ m)) :=
  ⟨⟨rfl, rfl⟩, claim_C4_flattener_recursion c4Fields rfl rfl⟩

/-- C5: an input that is not a struct after following at most one
pointer flattens to the empty mapping — no entries, no error, no
partial output. -/
theorem claim_C5_input_guard (v : GoValue) (h : derefKindIsStruct v = false) :
    structToFlatMap v = some [] := by
  cases v <;> first | rfl | simp [derefKindIsStruct] at h

/-- C5 witness: a scalar and a non-nil pointer to a non-struct both
yield the empty mapping. -/
theorem claim_C5_witness :
    derefKindIsStruct (.scalar .intT "5") = false ∧
    structToFlatMap (.scalar .intT "5") = some [] ∧
    derefKindIsStruct (.ptrOther false) = false ∧
    structToFlatMap (.ptrOther false) = some [] :=
  ⟨rfl, claim_C5_input_guard _ rfl, rfl, claim_C5_input_guard _ rfl⟩

/-- C6: entry encoding in the `setApp` loop: a slice/array value is
JSON-marshalled and the marshalled text is what reaches `setAppOption`
(a marshal failure becomes the 500 response and stops the loop before
any further write), a value of any other kind is handed over unchanged,
and a successful write persists the formatted text under the key
`"apps." + appID + "." + fieldKey`. -/
theorem claim_C6_composite_encoding (store : StoreModel) (appID : String)
    (st : LoopState) (k : String) (v : GoValue)
    (rest : List (String × GoValue)) :
    ((goKind v = .sliceK ∨ goKind v = .arrayK) →
      (∀ m, jsonMarshal v = .ok m →
        setAppLoop store appID ((k, v) :: rest) st
          = (match setAppOption store st appID k (.scalar .stringT m) with
             | (st2, some e) => (st2, .serverError e)
             | (st2, none) => setAppLoop store appID rest st2)) ∧
      (∀ e, jsonMarshal v = .error e →
        setAppLoop store appID ((k, v) :: rest) st = (st, .serverError e))) ∧
    ((goKind v ≠ .sliceK ∧ goKind v ≠ .arrayK) →
      setAppLoop store appID ((k, v) :: rest) st
        = (match setAppOption store st appID k v with
           | (st2, some e) => (st2, .serverError e)
           | (st2, none) => setAppLoop store appID rest st2)) ∧
    (∀ fld val, (setAppOption store st appID fld val).2 = none →
      (setAppOption store st appID fld val).1.persisted
        = setAssoc st.persisted ("apps." ++ appID ++ "." ++ fld) (goSprintf val)) := by
  refine ⟨fun hkind => ⟨?_, ?_⟩, ?_, ?_⟩
  · intro m hm
    cases v with
    | slice xs => simp [setAppLoop, goKind, hm]
    | array xs => simp [setAppLoop, goKind, hm]
    | scalar ty r => simp [goKind] at hkind
    | struct fs => simp [goKind] at hkind
    | ptrStruct fs => simp [goKind] at hkind
    | ptrStructNil => simp [goKind] at hkind
    | ptrOther b => simp [goKind] at hkind
    | unsupported r => simp [goKind] at hkind
  · intro e hm
    cases v with
    | slice xs => simp [setAppLoop, goKind, hm]
    | array xs => simp [setAppLoop, goKind, hm]
    | scalar ty r => simp [goKind] at hkind
    | struct fs => simp [goKind] at hkind
    | ptrStruct fs => simp [goKind] at hkind
    | ptrStructNil => simp [goKind] at hkind
    | ptrOther b => simp [goKind] at hkind
    | unsupported r => simp [goKind] at hkind
  · intro hkind
    cases v with
    | slice xs => exact absurd rfl hkind.1
    | array xs => exact absurd rfl hkind.2
    | scalar ty r => simp [setAppLoop, goKind]
    | struct fs => simp [setAppLoop, goKind]
    | ptrStruct fs => simp [setAppLoop, goKind]
    | ptrStructNil => simp [setAppLoop, goKind]
    | ptrOther b => simp [setAppLoop, goKind]
    | unsupported r => simp [setAppLoop, goKind]
  · intro fld val hnone
    cases hw : store.writeErr ("apps." ++ appID ++ "." ++ fld) (goSprintf val) with
    | some e => simp [setAppOption, hw] at hnone
    | none => simp [setAppOption, hw]

/-- C6 witness: a concrete list marshals to its JSON text and follows
the slice branch; a slice holding an unmarshalable element aborts the
loop with the marshal error before the next entry; a plain string
follows the default branch; a successful write lands under
`apps.test.title`. -/
theorem claim_C6_witness :
    jsonMarshal wSlice = .ok "[\"a\",\"b\"]" ∧
    setAppLoop wStoreOK "test" [("tags", wSlice)] wState
      = (match setAppOption wStoreOK wState "test" "tags"
            (.scalar .stringT "[\"a\",\"b\"]") with
         | (st2, some e) => (st2, .serverError e)
         | (st2, none) => setAppLoop wStoreOK "test" [] st2) ∧
    jsonMarshal wBadSlice = .error "json: unsupported type" ∧
    setAppLoop wStoreOK "test"
      [("bad", wBadSlice), ("x", .scalar .intT "1")] wState
      = (wState, .serverError "json: unsupported type") ∧
    setAppLoop wStoreOK "test" [("title", .scalar .stringT "T")] wState
      = (match setAppOption wStoreOK wState "test" "title" (.scalar .stringT "T") with
         | (st2, some e) => (st2, .serverError e)
         | (st2, none) => setAppLoop wStoreOK "test" [] st2) ∧
    (setAppOption wStoreOK wState "test" "title" (.scalar .stringT "T")).1.persisted
      = [("apps.test.title", "T")] :=
  ⟨rfl,
    ((claim_C6_composite_encoding wStoreOK "test" wState "tags" wSlice []).1
      (Or.inl rfl)).1 _ rfl,
    rfl,
    ((claim_C6_composite_encoding wStoreOK "test" wState "bad" wBadSlice
      [("x", .scalar .intT "1")]).1 (Or.inl rfl)).2 _ rfl,
    (claim_C6_composite_encoding wStoreOK "test" wState "title"
      (.scalar .stringT "T") []).2.1 ⟨by decide, by decide⟩,
    (claim_C6_composite_encoding wStoreOK "test" wState "title"
      (.scalar .stringT "T") []).2.2 "title" (.scalar .stringT "T") rfl⟩

/-- C7: when the store write succeeds, `setAppOption` returns nil no
matter how the struct-assignment step fares — its error result is
discarded (the best-effort merge result is still installed), so a
type-coercion failure during the merge is never reported. -/
theorem claim_C7_unchecked_assignment (store : StoreModel) (st : LoopState)
    (appID fld : String) (val : GoValue)
    (hok : store.writeErr ("apps." ++ appID ++ "." ++ fld) (goSprintf val) = none) :
    (setAppOption store st appID fld val).2 = none ∧
    (setAppOption store st appID fld val).1.config
      = (AssignMapToStruct
          (ConvertFlatToNested [("apps." ++ appID ++ "." ++ fld, goSprintf val)])
          st.config).1 := by
  constructor <;> simp [setAppOption, hok]

/-- C7 witness: writing the unparsable text `oops` into the bool field
`active` makes the modelled assigner report a coercion error, yet
`setAppOption` still returns nil. -/
theorem claim_C7_witness :
    wStoreOK.writeErr "apps.test.active" (goSprintf (.scalar .stringT "oops")) = none ∧
    (AssignMapToStruct (ConvertFlatToNested [("apps.test.active", "oops")]) wCfg).2
      = some "cannot parse \"oops\" as bool" ∧
    (setAppOption wStoreOK wState "test" "active" (.scalar .stringT "oops")).2 = none :=
  ⟨rfl, rfl,
    (claim_C7_unchecked_assignment wStoreOK wState "test" "active"
      (.scalar .stringT "oops") rfl).1⟩

/-- C8: a NotFound from the store's DeleteOptions is treated as
success — the app is still removed from the in-memory map and the
handler answers 204 No Content — while any other store error is
reported with a 500 and leaves the in-memory map unchanged. -/
theorem claim_C8_delete_notfound {α : Type} (store : DelStore)
    (apps : List (String × α)) (appID : String) :
    ((store.deleteOptions ("apps." ++ appID) = none ∨
      store.deleteOptions ("apps." ++ appID) = some .notFound) →
      deleteApp store apps appID
        = (apps.filter (fun p => p.1 != appID), .noContent)) ∧
    (∀ msg, store.deleteOptions ("apps." ++ appID) = some (.otherErr msg) →
      deleteApp store apps appID = (apps, .serverError msg)) := by
  constructor
  · rintro (h | h) <;> simp [deleteApp, h]
  · intro msg h
    simp [deleteApp, h]

/-- C8 witness: a NotFound store still removes the app and answers 204;
a failing store answers 500 with the map untouched. -/
theorem claim_C8_witness :
    deleteApp wDelNF [("test", 1), ("z", 2)] "test" = ([("z", 2)], .noContent) ∧
    deleteApp wDelErr [("test", 1)] "test"
      = ([("test", 1)], .serverError "disk failure") :=
  ⟨(claim_C8_delete_notfound wDelNF [("test", 1), ("z", 2)] "test").1 (Or.inr rfl),
    (claim_C8_delete_notfound wDelErr [("test", 1)] "test").2 "disk failure" rfl⟩

/-- C9: flattening a nil pointer whose element type is a struct does
not return the empty mapping — the model's `none` stands for the
`reflect.Value.NumField` panic on the zero value produced by
dereferencing the nil pointer. -/
theorem claim_C9_nil_pointer_panics :
    structToFlatMap .ptrStructNil = none ∧
    structToFlatMap .ptrStructNil ≠ some [] :=
  ⟨rfl, by simp [structToFlatMap]⟩

/-- C10: a field whose declared type is a pointer to a struct is not
recursed into — only struct-kind values are — so the pointer value
itself (nil or not) is stored as a single leaf under the field's own
key and never produces dotted child keys. -/
theorem claim_C10_pointer_fields_are_leaves (n t : String) (sub : GoFields)
    (rest : GoFields) (acc : List (String × GoValue)) :
    flattenFields (.cons n t (.ptrStruct sub) rest) acc
      = flattenFields rest (setAssoc acc (fieldKeyName n t) (.ptrStruct sub)) ∧
    structToFlatMap (.struct (.cons n t (.ptrStruct sub) .nil))
      = some [(fieldKeyName n t, .ptrStruct sub)] ∧
    flattenFields (.cons n t .ptrStructNil rest) acc
      = flattenFields rest (setAssoc acc (fieldKeyName n t) .ptrStructNil) ∧
    structToFlatMap (.struct (.cons n t .ptrStructNil .nil))
      = some [(fieldKeyName n t, .ptrStructNil)] :=
  ⟨rfl, rfl, rfl, rfl⟩

end SemaphoreApps
